import Mathlib

/-!
# tsnake: a shallow embedding of `tsnake.c` and its verified properties

The C program keeps its whole game in process-wide variables.  Here they are
gathered in one record, `State`, and every C function becomes a function on
that record.

Conventions of the embedding

* C `int` values are modelled by `Int`.  Coordinates stay inside the terminal
  and the score is bounded by the number of board cells, so no arithmetic of
  the game comes near the 32-bit limits.
* C `/` and `%` truncate towards zero: they are `Int.tdiv` and `Int.tmod`.
* The linked list `snake` is a `List Cell`, head of the snake first.
  `malloc` is assumed to succeed.
* `rand()` is an oracle: each call of a function that draws random numbers
  receives the values `rand()` is going to return, as pairs of naturals, one
  pair for each pass of the loop of `placeFood`.  Running out of pairs stands
  for a loop that has not finished yet.
* `getch()` and `getmaxyx()` are oracles as well: the key code read and the
  terminal size are arguments.
* Drawing (`draw`, `drawStatus`, `mvprintw`, `refresh`, `usleep`) does not
  touch the game variables and is left out.
* The score file is the field `scoreFile` (`none`: no readable file).
-/

namespace TSnake

/-! ## Constants -/

def INITIAL_DELAY : Int := 70000
def SPEED_STEP : Int := 5000
def LEVEL_UP_SCORE : Int := 10
def STATUS_HEIGHT : Int := 4

/-- Key code of the down arrow, as `<ncurses.h>` defines it (octal 0402). -/
def KEY_DOWN : Int := 258
/-- Key code of the up arrow, as `<ncurses.h>` defines it (octal 0403). -/
def KEY_UP : Int := 259
/-- Key code of the left arrow, as `<ncurses.h>` defines it (octal 0404). -/
def KEY_LEFT : Int := 260
/-- Key code of the right arrow, as `<ncurses.h>` defines it (octal 0405). -/
def KEY_RIGHT : Int := 261
/-- Value `getch()` returns in no-delay mode when no key is pending. -/
def ERR : Int := -1

/-! ## Data model -/

/-- One `snakeSegment`: its `x` and `y`. -/
abbrev Cell := Int × Int

/-- Ways in which a modelled call fails to deliver a state. -/
inductive Fault where
  /-- Read of `snake->x` while `snake == NULL`. -/
  | nullSnake
  /-- Remainder by zero, `rand() % 0`. -/
  | divByZero
  /-- The supplied `rand()` values ran out inside the `do ... while` loop. -/
  | randExhausted
  /-- The supplied keys ran out inside the blocking loop of `gameOverScreen`. -/
  | keysExhausted
  deriving DecidableEq, Repr

/-- The global variables of `tsnake.c`, plus the contents of the score file. -/
structure State where
  snake : List Cell
  termWidth : Int
  termHeight : Int
  dirX : Int
  dirY : Int
  foodX : Int
  foodY : Int
  gameOver : Int
  gamePaused : Int
  score : Int
  highScore : Int
  delay : Int
  quitting : Int
  scoreFile : Option Int
  deriving DecidableEq, Repr

/-- The variables as the C initialisers leave them at program start. -/
def initialGlobals (file : Option Int) : State :=
  { snake := [], termWidth := 0, termHeight := 0, dirX := 1, dirY := 0,
    foodX := 0, foodY := 0, gameOver := 0, gamePaused := 0, score := 0,
    highScore := 0, delay := INITIAL_DELAY, quitting := 0, scoreFile := file }

/-! ## Snake functions -/

/-- Function `addSegment(x, y)`: a new node becomes the head of the list. -/
def addSegment (s : State) (x y : Int) : State :=
  { s with snake := (x, y) :: s.snake }

/-- The scan of `removeTail` from `cur`: advance while `cur->next->next`
exists, then cut off `cur->next`. -/
def removeTailFrom : List Cell → List Cell
  | c :: d :: e :: rest => c :: removeTailFrom (d :: e :: rest)
  | c :: _ => [c]
  | [] => []

/-- Function `removeTail()`: nothing happens on a list of fewer than two nodes. -/
def removeTail (s : State) : State :=
  match s.snake with
  | [] => s
  | [_] => s
  | c :: d :: rest => { s with snake := removeTailFrom (c :: d :: rest) }

/-- Function `collision(x, y)`: 1 outside the board or on a snake cell, else 0. -/
def collision (s : State) (x y : Int) : Int :=
  if x < 0 ∨ x ≥ s.termWidth ∨ y < 0 ∨ y ≥ s.termHeight - STATUS_HEIGHT then 1
  else if s.snake.any (fun c => c.1 == x && c.2 == y) then 1
  else 0

/-- The coordinates one pass of the `do` body of `placeFood` computes from the
two `rand()` results `r1`, `r2`: `r1 % termWidth` and
`r2 % termHeight - (STATUS_HEIGHT + 1)`. -/
def foodCandidate (s : State) (r1 r2 : Nat) : Cell :=
  (Int.tmod r1 s.termWidth, Int.tmod r2 s.termHeight - (STATUS_HEIGHT + 1))

/-- Function `placeFood()`: draw candidates until `collision` is 0.  Each pass of the
`do` body takes one pair of `rand()` results, the one for `foodX` first. -/
def placeFood (s : State) : List (Nat × Nat) → Except Fault State
  | [] => .error .randExhausted
  | (r1, r2) :: rest =>
    if s.termWidth = 0 ∨ s.termHeight = 0 then .error .divByZero
    else
      let s1 := { s with foodX := (foodCandidate s r1 r2).1,
                         foodY := (foodCandidate s r1 r2).2 }
      if collision s1 s1.foodX s1.foodY ≠ 0 then placeFood s1 rest
      else .ok s1

/-! ## Game logic -/

/-- Function `update()`: one tick of the simulation. -/
def update (s : State) (rs : List (Nat × Nat)) : Except Fault State :=
  match s.snake with
  | [] => .error .nullSnake
  | hd :: _ =>
    let newX := hd.1 + s.dirX
    let newY := hd.2 + s.dirY
    if collision s newX newY ≠ 0 then .ok { s with gameOver := 1 }
    else if newX = s.foodX ∧ newY = s.foodY then
      let s1 := addSegment s newX newY
      let s2 := { s1 with score := s1.score + 1 }
      let s3 := if Int.tmod s2.score LEVEL_UP_SCORE = 0 ∧ s2.delay > 50000
                then { s2 with delay := s2.delay - SPEED_STEP } else s2
      placeFood s3 rs
    else .ok (removeTail (addSegment s newX newY))

/-- Function `input()`, with `ch` the value `getch()` returned. -/
def input (s : State) (ch : Int) : State :=
  if ch = 112 ∨ ch = 80 then   -- 'p', 'P'
    { s with gamePaused := if s.gamePaused = 0 then 1 else 0 }
  else if ch = 113 ∨ ch = 81 then   -- 'q', 'Q'
    { s with quitting := 1, gameOver := 1 }
  else if ch = KEY_UP then
    if s.dirY = 0 then { s with dirX := 0, dirY := -1 } else s
  else if ch = KEY_DOWN then
    if s.dirY = 0 then { s with dirX := 0, dirY := 1 } else s
  else if ch = KEY_LEFT then
    if s.dirX = 0 then { s with dirX := -1, dirY := 0 } else s
  else if ch = KEY_RIGHT then
    if s.dirX = 0 then { s with dirX := 1, dirY := 0 } else s
  else s

/-! ## High score persistence -/

/-- Function `loadHighScore()`: read the file when it is there. -/
def loadHighScore (s : State) : State :=
  match s.scoreFile with
  | some v => { s with highScore := v }
  | none => s

/-- Function `saveHighScore()`: the write is assumed to succeed. -/
def saveHighScore (s : State) : State :=
  if s.score > s.highScore then { s with scoreFile := some s.score } else s

/-- Function `cleanup()`: free the whole list. -/
def cleanup (s : State) : State :=
  { s with snake := [] }

/-- Function `reset()`; `rows` and `cols` are what `getmaxyx` reports. -/
def reset (s : State) (rows cols : Int) (rs : List (Nat × Nat)) : Except Fault State :=
  let s1 := cleanup s
  let s2 := { s1 with dirX := 1, dirY := 0, score := 0, delay := INITIAL_DELAY,
                      gamePaused := 0, gameOver := 0 }
  let s3 := { s2 with termHeight := rows, termWidth := cols }
  let s4 := { s3 with termWidth := s3.termWidth - 2 }
  let s5 := addSegment s4 (Int.tdiv s4.termWidth 2)
              (Int.tdiv (s4.termHeight - STATUS_HEIGHT) 2)
  placeFood s5 rs

/-- The key loop of `gameOverScreen`: `while ((ch = getch()))`. -/
def gameOverKeys (s : State) (rows cols : Int) (rs : List (Nat × Nat)) :
    List Int → Except Fault State
  | [] => .error .keysExhausted
  | ch :: rest =>
    if ch = 0 then .ok s
    else if ch = 114 ∨ ch = 82 then reset s rows cols rs   -- 'r', 'R'
    else if ch = 113 ∨ ch = 81 then .ok { s with quitting := 1 }   -- 'q', 'Q'
    else gameOverKeys s rows cols rs rest

/-- Function `gameOverScreen()`: save the high score, then wait for a key. -/
def gameOverScreen (s : State) (keys : List Int) (rows cols : Int)
    (rs : List (Nat × Nat)) : Except Fault State :=
  gameOverKeys (saveHighScore s) rows cols rs keys

/-- Function `init()`; the commented-out size check is not part of the program. -/
def init (file : Option Int) (rows cols : Int) (rs : List (Nat × Nat)) :
    Except Fault State :=
  let s1 := loadHighScore (initialGlobals file)
  let s2 := { s1 with termHeight := rows, termWidth := cols }
  let s3 := { s2 with termWidth := s2.termWidth - 2 }
  reset s3 rows cols rs

/-- What the environment supplies during one pass of the main loop: the key
`input()` reads, the `rand()` values, and, for the game-over screen, the keys
typed and the terminal size seen by `reset`. -/
structure Tick where
  ch : Int
  rs : List (Nat × Nat)
  keys : List Int
  rows : Int
  cols : Int

/-- The body of `while (!quitting)` in `main`. -/
def loopBody (s : State) (t : Tick) : Except Fault State :=
  let s1 := input s t.ch
  if s1.gamePaused = 0 ∧ s1.gameOver = 0 then update s1 t.rs
  else if s1.gameOver ≠ 0 then
    let s2 := saveHighScore s1
    if s2.quitting = 0 then gameOverScreen s2 t.keys t.rows t.cols t.rs
    else .ok s2
  else .ok s1

/-- The loop of `main`, for as many passes as there are ticks supplied. -/
def mainLoop : State → List Tick → Except Fault State
  | s, [] => .ok s
  | s, t :: ts =>
    if s.quitting ≠ 0 then .ok s
    else
      match loopBody s t with
      | .ok s1 => mainLoop s1 ts
      | .error e => .error e

/-! ## Reachability -/

/-- States reachable from a `reset()` on a terminal of `rows` by `cols` by any
sequence of `input()` events and `update()` ticks. -/
inductive Reachable (rows cols : Int) : State → Prop
  | reset (s0 : State) (rs : List (Nat × Nat)) (s : State) :
      reset s0 rows cols rs = .ok s → Reachable rows cols s
  | input (s : State) (ch : Int) :
      Reachable rows cols s → Reachable rows cols (input s ch)
  | update (s : State) (rs : List (Nat × Nat)) (s1 : State) :
      Reachable rows cols s → update s rs = .ok s1 → Reachable rows cols s1

/-- The cell lies on the board of state `s`. -/
def InBoard (s : State) (c : Cell) : Prop :=
  0 ≤ c.1 ∧ c.1 < s.termWidth ∧ 0 ≤ c.2 ∧ c.2 < s.termHeight - STATUS_HEIGHT

instance (s : State) (c : Cell) : Decidable (InBoard s c) := by
  unfold InBoard; infer_instance

/-- Snake invariant: non-empty, no repeated cell, all cells on the board. -/
def SnakeOk (s : State) : Prop :=
  s.snake ≠ [] ∧ s.snake.Nodup ∧ ∀ c ∈ s.snake, InBoard s c

/-- Food invariant: the food is on the board and on no snake cell. -/
def FoodOk (s : State) : Prop :=
  (s.foodX, s.foodY) ∉ s.snake ∧ InBoard s (s.foodX, s.foodY)

/-! ## Concrete states used as test points -/

/-- A 10 by 10 board (terminal of 14 rows and 12 columns) right after `reset`:
snake `[(5,5)]`, heading right, food at `(6,5)`. -/
def scenarioA : State :=
  { snake := [(5, 5)], termWidth := 10, termHeight := 14, dirX := 1, dirY := 0,
    foodX := 6, foodY := 5, gameOver := 0, gamePaused := 0, score := 0,
    highScore := 0, delay := 70000, quitting := 0, scoreFile := none }

/-- The state one tick after `scenarioA`, the new food drawn at `(0,0)`. -/
def scenarioA1 : State :=
  { scenarioA with snake := [(6, 5), (5, 5)], score := 1, foodX := 0, foodY := 0 }

/-- Snake of one cell at the left wall of the 10 by 10 board, heading left:
the next head would be `(-1, 5)`. -/
def scenarioB : State :=
  { scenarioA with snake := [(0, 5)], dirX := -1, dirY := 0 }

/-- A finished game on the 10 by 10 board: paused flag set, score 12, delay
already stepped down, heading up. -/
def scenarioOver : State :=
  { scenarioA with snake := [(3, 0), (3, 1), (3, 2)], dirX := 0, dirY := -1,
                   gameOver := 1, gamePaused := 1, score := 12, delay := 65000 }

/-- The smallest terminal on which `reset` returns, 6 rows by 3 columns: a
board of one column and two rows, snake `[(0,1)]`, food at `(0,0)`. -/
def tinyStart : State :=
  { snake := [(0, 1)], termWidth := 1, termHeight := 6, dirX := 1, dirY := 0,
    foodX := 0, foodY := 0, gameOver := 0, gamePaused := 0, score := 0,
    highScore := 0, delay := 70000, quitting := 0, scoreFile := none }

/-- State `tinyStart` after the Up key: the candidate head `(0,0)` is free and
is the food cell, and eating it fills the board. -/
def tinyUp : State :=
  { tinyStart with dirX := 0, dirY := -1 }

/-- A pass of the main loop in which no key is pending; `rs` feeds `rand()`. -/
def quiet (rs : List (Nat × Nat)) : Tick :=
  { ch := ERR, rs := rs, keys := [], rows := 14, cols := 12 }

/-- A pass of the main loop in which `getch()` returns `ch`. -/
def press (ch : Int) : Tick :=
  { ch := ch, rs := [], keys := [], rows := 14, cols := 12 }

/-- State `scenarioA` with a score file that holds 0. -/
def fileStart : State :=
  { scenarioA with scoreFile := some 0 }

/-- First game: eat at `(6,5)` and `(7,5)`, run on into the right wall, and on
the game-over screen press `r`; the restart draws its food at `(6,5)`. -/
def firstGame : List Tick :=
  [quiet [(7, 10)], quiet [(0, 5)], quiet [], quiet [], quiet [],
   { ch := ERR, rs := [(6, 10)], keys := [114], rows := 14, cols := 12 }]

/-- The state after `firstGame`: a fresh game, the file holding the score 2. -/
def afterFirstGame : State :=
  { scenarioA with scoreFile := some 2 }

/-- Second game up to the crash: eat at `(6,5)`, run on into the right wall. -/
def secondGame : List Tick :=
  [quiet [(0, 5)], quiet [], quiet [], quiet [], quiet []]

/-- The state after `secondGame`: game over with score 1. -/
def afterSecondGame : State :=
  { scenarioA with snake := [(9, 5), (8, 5)], foodX := 0, foodY := 0,
                   gameOver := 1, score := 1, scoreFile := some 2 }

/-- Eat once, pause, then turn up and left while paused. -/
def pausedTurns : List Tick :=
  [quiet [(0, 5)], press 112, press KEY_UP, press KEY_LEFT]

/-- The state after `pausedTurns`: paused, two cells long, heading left. -/
def afterPausedTurns : State :=
  { scenarioA1 with dirX := -1, dirY := 0, gamePaused := 1 }

/-! ## Notions taken from the specification -/

/-- The tick delay as the specification derives it from the score:
`max(50000, INITIAL_DELAY - SPEED_STEP * floor(score / LEVEL_UP_SCORE))`. -/
def delayOfScore (score : Int) : Int :=
  max 50000 (INITIAL_DELAY - SPEED_STEP * (score / LEVEL_UP_SCORE))

/-- The unit vector of a directional key, `none` for every other key. -/
def keyVector (ch : Int) : Option (Int × Int) :=
  if ch = KEY_UP then some (0, -1)
  else if ch = KEY_DOWN then some (0, 1)
  else if ch = KEY_LEFT then some (-1, 0)
  else if ch = KEY_RIGHT then some (1, 0)
  else none

/-- The four directions: Right, Left, Down, Up. -/
def IsDirection (dx dy : Int) : Prop :=
  (dx = 1 ∧ dy = 0) ∨ (dx = -1 ∧ dy = 0) ∨ (dx = 0 ∧ dy = 1) ∨ (dx = 0 ∧ dy = -1)

/-- The movement axis of a unit vector: `true` for horizontal. -/
def horizontal (v : Int × Int) : Bool :=
  v.2 == 0

/-! ## Basic facts about the functions -/

/-- Function `collision` returns 0 exactly for a board cell that is not on the
snake. -/
theorem collision_eq_zero_iff (s : State) (x y : Int) :
    collision s x y = 0 ↔ InBoard s (x, y) ∧ (x, y) ∉ s.snake := by
  unfold collision InBoard
  by_cases hb : x < 0 ∨ x ≥ s.termWidth ∨ y < 0 ∨ y ≥ s.termHeight - STATUS_HEIGHT
  · rw [if_pos hb]
    constructor
    · intro h; exact absurd h (by decide)
    · rintro ⟨h, -⟩; simp only at h; omega
  · rw [if_neg hb]
    have hin : 0 ≤ x ∧ x < s.termWidth ∧ 0 ≤ y ∧ y < s.termHeight - STATUS_HEIGHT := by
      omega
    by_cases hm : (x, y) ∈ s.snake
    · have : s.snake.any (fun c => c.1 == x && c.2 == y) = true := by
        rw [List.any_eq_true]
        exact ⟨(x, y), hm, by simp⟩
      rw [if_pos this]
      constructor
      · intro h; exact absurd h (by decide)
      · rintro ⟨-, h⟩; exact absurd hm h
    · have : ¬ s.snake.any (fun c => c.1 == x && c.2 == y) = true := by
        rw [List.any_eq_true]
        rintro ⟨⟨a, b⟩, hab, hEq⟩
        simp only [Bool.and_eq_true, beq_iff_eq] at hEq
        obtain ⟨rfl, rfl⟩ := hEq
        exact hm hab
      rw [if_neg this]
      exact ⟨fun _ => ⟨hin, hm⟩, fun _ => rfl⟩

/-- On a list of at least two cells the scan removes the last cell. -/
theorem removeTailFrom_cons_cons (c d : Cell) (rest : List Cell) :
    removeTailFrom (c :: d :: rest) = c :: (d :: rest).dropLast := by
  induction rest generalizing c d with
  | nil => rfl
  | cons e rest ih =>
    rw [removeTailFrom, ih d e]
    rfl

/-- Adding a head and then removing the tail, as a non-growth tick does. -/
theorem removeTail_addSegment (s : State) (x y : Int) (hne : s.snake ≠ []) :
    removeTail (addSegment s x y) = { s with snake := (x, y) :: s.snake.dropLast } := by
  cases hs : s.snake with
  | nil => exact absurd hs hne
  | cons d rest =>
    simp only [removeTail, addSegment, hs, removeTailFrom_cons_cons]

/-- A finished `placeFood` changed nothing but the food, and the food it left
does not collide. -/
theorem placeFood_ok (s : State) (rs : List (Nat × Nat)) (s1 : State)
    (h : placeFood s rs = .ok s1) :
    s1 = { s with foodX := s1.foodX, foodY := s1.foodY } ∧
      collision s1 s1.foodX s1.foodY = 0 := by
  induction rs generalizing s with
  | nil => exact absurd h (by simp [placeFood])
  | cons p rest ih =>
    obtain ⟨r1, r2⟩ := p
    rw [placeFood] at h
    by_cases hz : s.termWidth = 0 ∨ s.termHeight = 0
    · rw [if_pos hz] at h
      exact absurd h (by simp)
    · rw [if_neg hz] at h
      dsimp only at h
      split at h
      · obtain ⟨h1, h2⟩ := ih _ h
        refine ⟨?_, h2⟩
        rw [h1]
      · rename_i hc
        injection h with h
        subst h
        exact ⟨rfl, not_not.mp hc⟩

/-- The do-while loop of `placeFood` finishes as soon as a drawn candidate
does not collide. -/
theorem placeFood_returns (s : State) (pre : List (Nat × Nat)) (r1 r2 : Nat)
    (post : List (Nat × Nat))
    (hfree : collision s (foodCandidate s r1 r2).1 (foodCandidate s r1 r2).2 = 0) :
    ∃ s1, placeFood s (pre ++ (r1, r2) :: post) = .ok s1 := by
  have hin := ((collision_eq_zero_iff s _ _).1 hfree).1
  have hz : ¬ (s.termWidth = 0 ∨ s.termHeight = 0) := by
    unfold InBoard foodCandidate at hin
    simp only [STATUS_HEIGHT] at hin
    rintro (h0 | h0)
    · omega
    · rw [h0, Int.tmod_zero] at hin
      omega
  induction pre generalizing s with
  | nil =>
    rw [List.nil_append, placeFood, if_neg hz]
    dsimp only
    rw [if_neg]
    · exact ⟨_, rfl⟩
    · exact not_not.mpr hfree
  | cons p pre ih =>
    obtain ⟨a, b⟩ := p
    rw [List.cons_append, placeFood, if_neg hz]
    dsimp only
    split
    · exact ih _ hfree hin hz
    · exact ⟨_, rfl⟩

/-- The do-while loop of `placeFood` never finishes when every candidate it
can draw collides. -/
theorem placeFood_stuck (s : State)
    (hall : ∀ r1 r2 : Nat,
      collision s (foodCandidate s r1 r2).1 (foodCandidate s r1 r2).2 ≠ 0)
    (rs : List (Nat × Nat)) (s1 : State) : placeFood s rs ≠ .ok s1 := by
  induction rs generalizing s with
  | nil =>
    intro h
    exact absurd h (by simp [placeFood])
  | cons p rest ih =>
    obtain ⟨r1, r2⟩ := p
    intro h
    rw [placeFood] at h
    by_cases hz : s.termWidth = 0 ∨ s.termHeight = 0
    · rw [if_pos hz] at h
      exact absurd h (by simp)
    · rw [if_neg hz] at h
      dsimp only at h
      split at h
      · exact ih _ (by intro a b; exact hall a b) h
      · rename_i hc
        exact hc (hall r1 r2)

/-- The state `update` hands to `placeFood` on a growth tick: new head added,
score incremented, delay stepped down when a level is reached. -/
theorem update_eat (s : State) (hd : Cell) (tl : List Cell) (rs : List (Nat × Nat))
    (hs : s.snake = hd :: tl)
    (hc : collision s (hd.1 + s.dirX) (hd.2 + s.dirY) = 0)
    (hf : hd.1 + s.dirX = s.foodX ∧ hd.2 + s.dirY = s.foodY) :
    update s rs =
      placeFood
        { s with snake := (hd.1 + s.dirX, hd.2 + s.dirY) :: s.snake,
                 score := s.score + 1,
                 delay := if Int.tmod (s.score + 1) LEVEL_UP_SCORE = 0 ∧ s.delay > 50000
                          then s.delay - SPEED_STEP else s.delay } rs := by
  unfold update
  rw [hs]
  dsimp only
  rw [if_neg (not_not.mpr hc), if_pos hf]
  by_cases hl : Int.tmod (s.score + 1) LEVEL_UP_SCORE = 0 ∧ s.delay > 50000
  · simp only [addSegment, hl, and_self, if_true, hs]
  · simp only [addSegment, hl, if_false, hs]

/-- A tick onto a free cell without food: new head, last cell dropped. -/
theorem update_move (s : State) (hd : Cell) (tl : List Cell) (rs : List (Nat × Nat))
    (hs : s.snake = hd :: tl)
    (hc : collision s (hd.1 + s.dirX) (hd.2 + s.dirY) = 0)
    (hf : ¬ (hd.1 + s.dirX = s.foodX ∧ hd.2 + s.dirY = s.foodY)) :
    update s rs =
      .ok { s with snake := (hd.1 + s.dirX, hd.2 + s.dirY) :: s.snake.dropLast } := by
  have hne : s.snake ≠ [] := by rw [hs]; exact List.cons_ne_nil _ _
  unfold update
  rw [hs]
  dsimp only
  rw [if_neg (not_not.mpr hc), if_neg hf, removeTail_addSegment s _ _ hne, hs]

/-- A tick whose candidate head collides only sets `gameOver`. -/
theorem update_fatal (s : State) (hd : Cell) (tl : List Cell) (rs : List (Nat × Nat))
    (hs : s.snake = hd :: tl)
    (hc : collision s (hd.1 + s.dirX) (hd.2 + s.dirY) ≠ 0) :
    update s rs = .ok { s with gameOver := 1 } := by
  unfold update
  rw [hs]
  dsimp only
  rw [if_pos hc]

/-- Function `input` touches neither the snake, the board, the food, the score nor the
delay. -/
theorem input_frame (s : State) (ch : Int) :
    (input s ch).snake = s.snake ∧ (input s ch).termWidth = s.termWidth ∧
    (input s ch).termHeight = s.termHeight ∧ (input s ch).foodX = s.foodX ∧
    (input s ch).foodY = s.foodY ∧ (input s ch).score = s.score ∧
    (input s ch).delay = s.delay := by
  unfold input
  split_ifs <;> simp

/-- A head that does not collide keeps the snake invariant, with or without
the removal of the last cell. -/
theorem snakeOk_dropLast_cons (s : State) (c : Cell) (hok : SnakeOk s)
    (hc : collision s c.1 c.2 = 0) :
    SnakeOk { s with snake := c :: s.snake.dropLast } ∧
      SnakeOk { s with snake := c :: s.snake } := by
  obtain ⟨-, hnd, hin⟩ := hok
  obtain ⟨hcin, hcm⟩ := (collision_eq_zero_iff s c.1 c.2).1 hc
  refine ⟨⟨List.cons_ne_nil _ _, ?_, ?_⟩, ⟨List.cons_ne_nil _ _, ?_, ?_⟩⟩
  · refine List.nodup_cons.2 ⟨fun hm => hcm (List.dropLast_subset _ hm), ?_⟩
    exact hnd.sublist (List.dropLast_sublist _)
  · intro d hd
    rcases List.mem_cons.1 hd with rfl | hd
    · exact hcin
    · exact hin d (List.dropLast_subset _ hd)
  · exact List.nodup_cons.2 ⟨hcm, hnd⟩
  · intro d hd
    rcases List.mem_cons.1 hd with rfl | hd
    · exact hcin
    · exact hin d hd

/-- The snake invariant depends only on the snake and the board size. -/
theorem snakeOk_congr (s t : State) (h1 : t.snake = s.snake)
    (h2 : t.termWidth = s.termWidth) (h3 : t.termHeight = s.termHeight)
    (h : SnakeOk s) : SnakeOk t := by
  unfold SnakeOk InBoard at *
  rw [h1, h2, h3]
  exact h

/-- The food invariant depends only on snake, board size and food. -/
theorem foodOk_congr (s t : State) (h1 : t.snake = s.snake)
    (h2 : t.termWidth = s.termWidth) (h3 : t.termHeight = s.termHeight)
    (h4 : t.foodX = s.foodX) (h5 : t.foodY = s.foodY)
    (h : FoodOk s) : FoodOk t := by
  unfold FoodOk InBoard at *
  rw [h1, h2, h3, h4, h5]
  exact h

/-- After a `reset` that returned, the snake is the centre cell and both
invariants hold. -/
theorem reset_good (s0 : State) (rows cols : Int) (rs : List (Nat × Nat)) (s : State)
    (h : reset s0 rows cols rs = .ok s) : SnakeOk s ∧ FoodOk s := by
  unfold reset at h
  obtain ⟨h1, h2⟩ := placeFood_ok _ rs s h
  have hsn : s.snake = [(Int.tdiv (cols - 2) 2, Int.tdiv (rows - STATUS_HEIGHT) 2)] :=
    congrArg State.snake h1
  have hw : s.termWidth = cols - 2 := by
    have e := congrArg State.termWidth h1
    exact e
  have hh : s.termHeight = rows := by
    have e := congrArg State.termHeight h1
    exact e
  obtain ⟨hin, hnm⟩ := (collision_eq_zero_iff s s.foodX s.foodY).1 h2
  refine ⟨⟨?_, ?_, ?_⟩, hnm, hin⟩
  · rw [hsn]; exact List.cons_ne_nil _ _
  · rw [hsn]; exact List.nodup_singleton _
  · intro c hc
    rw [hsn, List.mem_singleton] at hc
    subst hc
    unfold InBoard at hin ⊢
    rw [hw, hh] at *
    simp only [STATUS_HEIGHT] at *
    have e1 : Int.tdiv (cols - 2) 2 = (cols - 2) / 2 :=
      Int.tdiv_eq_ediv (by omega) (by omega)
    have e2 : Int.tdiv (rows - 4) 2 = (rows - 4) / 2 :=
      Int.tdiv_eq_ediv (by omega) (by omega)
    rw [e1, e2]
    omega

/-- One `update` that returned keeps both invariants. -/
theorem update_good (s : State) (rs : List (Nat × Nat)) (s1 : State)
    (hok : SnakeOk s) (hfood : FoodOk s) (h : update s rs = .ok s1) :
    SnakeOk s1 ∧ FoodOk s1 := by
  cases hs : s.snake with
  | nil => exact absurd hs hok.1
  | cons hd tl =>
    by_cases hc : collision s (hd.1 + s.dirX) (hd.2 + s.dirY) = 0
    · by_cases hf : hd.1 + s.dirX = s.foodX ∧ hd.2 + s.dirY = s.foodY
      · rw [update_eat s hd tl rs hs hc hf] at h
        obtain ⟨h1, h2⟩ := placeFood_ok _ rs s1 h
        have hsn : s1.snake = (hd.1 + s.dirX, hd.2 + s.dirY) :: s.snake :=
          congrArg State.snake h1
        have hw : s1.termWidth = s.termWidth := by
          have e := congrArg State.termWidth h1
          exact e
        have hh : s1.termHeight = s.termHeight := by
          have e := congrArg State.termHeight h1
          exact e
        obtain ⟨hin, hnm⟩ := (collision_eq_zero_iff s1 s1.foodX s1.foodY).1 h2
        refine ⟨?_, hnm, hin⟩
        exact snakeOk_congr { s with snake := (hd.1 + s.dirX, hd.2 + s.dirY) :: s.snake }
          s1 hsn hw hh (snakeOk_dropLast_cons s (hd.1 + s.dirX, hd.2 + s.dirY) hok hc).2
      · rw [update_move s hd tl rs hs hc hf] at h
        injection h with h
        subst h
        refine ⟨(snakeOk_dropLast_cons s (hd.1 + s.dirX, hd.2 + s.dirY) hok hc).1, ?_, hfood.2⟩
        intro hm
        rcases List.mem_cons.1 hm with he | hm
        · apply hf
          injection he with ha hb
          exact ⟨ha.symm, hb.symm⟩
        · exact hfood.1 (List.dropLast_subset _ hm)
    · rw [update_fatal s hd tl rs hs hc] at h
      injection h with h
      subst h
      exact ⟨hok, hfood⟩

/-- Every reachable state satisfies the snake and the food invariant. -/
theorem reachable_good (rows cols : Int) (s : State) (h : Reachable rows cols s) :
    SnakeOk s ∧ FoodOk s := by
  induction h with
  | reset s0 rs s h => exact reset_good s0 rows cols rs s h
  | input s ch _ ih =>
    obtain ⟨h1, h2, h3, h4, h5, -, -⟩ := input_frame s ch
    exact ⟨snakeOk_congr s _ h1 h2 h3 ih.1, foodOk_congr s _ h1 h2 h3 h4 h5 ih.2⟩
  | update s rs s1 _ hu ih => exact update_good s rs s1 ih.1 ih.2 hu

/-- The board size of a reachable state is the one `reset` read. -/
theorem reachable_dims (rows cols : Int) (s : State) (h : Reachable rows cols s) :
    s.termWidth = cols - 2 ∧ s.termHeight = rows := by
  induction h with
  | reset s0 rs s h =>
    unfold reset at h
    obtain ⟨h1, -⟩ := placeFood_ok _ rs s h
    exact ⟨congrArg State.termWidth h1, congrArg State.termHeight h1⟩
  | input s ch _ ih =>
    obtain ⟨-, h2, h3, -⟩ := input_frame s ch
    rw [h2, h3]; exact ih
  | update s rs s1 hr hu ih =>
    have hok := (reachable_good rows cols s hr).1
    cases hs : s.snake with
    | nil => exact absurd hs hok.1
    | cons hd tl =>
      by_cases hc : collision s (hd.1 + s.dirX) (hd.2 + s.dirY) = 0
      · by_cases hf : hd.1 + s.dirX = s.foodX ∧ hd.2 + s.dirY = s.foodY
        · rw [update_eat s hd tl rs hs hc hf] at hu
          obtain ⟨h1, -⟩ := placeFood_ok _ rs s1 hu
          have hw : s1.termWidth = s.termWidth := by
            have e := congrArg State.termWidth h1
            exact e
          have hh : s1.termHeight = s.termHeight := by
            have e := congrArg State.termHeight h1
            exact e
          rw [hw, hh]; exact ih
        · rw [update_move s hd tl rs hs hc hf] at hu
          injection hu with hu
          subst hu
          exact ih
      · rw [update_fatal s hd tl rs hs hc] at hu
        injection hu with hu
        subst hu
        exact ih

/-- What one returning `update` does to score and delay. -/
theorem update_score_delay (s : State) (rs : List (Nat × Nat)) (s1 : State)
    (h : update s rs = .ok s1) :
    (s1.score = s.score ∧ s1.delay = s.delay) ∨
    (s1.score = s.score + 1 ∧
      s1.delay = if Int.tmod (s.score + 1) LEVEL_UP_SCORE = 0 ∧ s.delay > 50000
                 then s.delay - SPEED_STEP else s.delay) := by
  cases hs : s.snake with
  | nil =>
    unfold update at h
    rw [hs] at h
    exact absurd h (by simp)
  | cons hd tl =>
    by_cases hc : collision s (hd.1 + s.dirX) (hd.2 + s.dirY) = 0
    · by_cases hf : hd.1 + s.dirX = s.foodX ∧ hd.2 + s.dirY = s.foodY
      · rw [update_eat s hd tl rs hs hc hf] at h
        obtain ⟨h1, -⟩ := placeFood_ok _ rs s1 h
        right
        constructor
        · have e := congrArg State.score h1
          exact e
        · have e := congrArg State.delay h1
          exact e
      · rw [update_move s hd tl rs hs hc hf] at h
        injection h with h
        subst h
        exact Or.inl ⟨rfl, rfl⟩
    · rw [update_fatal s hd tl rs hs hc] at h
      injection h with h
      subst h
      exact Or.inl ⟨rfl, rfl⟩

/-- In every reachable state the score is not negative and the delay is the
one the specification derives from the score. -/
theorem reachable_delay (rows cols : Int) (s : State) (h : Reachable rows cols s) :
    0 ≤ s.score ∧ s.delay = delayOfScore s.score := by
  induction h with
  | reset s0 rs s h =>
    unfold reset at h
    obtain ⟨h1, -⟩ := placeFood_ok _ rs s h
    have hsc : s.score = 0 := by
      have e := congrArg State.score h1
      exact e
    have hd : s.delay = INITIAL_DELAY := by
      have e := congrArg State.delay h1
      exact e
    rw [hsc, hd]
    exact ⟨le_refl _, by decide⟩
  | input s ch _ ih =>
    obtain ⟨-, -, -, -, -, h6, h7⟩ := input_frame s ch
    rw [h6, h7]; exact ih
  | update s rs s1 _ hu ih =>
    obtain ⟨hsc, hd⟩ := ih
    rcases update_score_delay s rs s1 hu with ⟨e1, e2⟩ | ⟨e1, e2⟩
    · rw [e1, e2]; exact ⟨hsc, hd⟩
    · have hmod : Int.tmod (s.score + 1) LEVEL_UP_SCORE = (s.score + 1) % 10 :=
        Int.tmod_eq_emod (by omega) (by decide)
      rw [hmod] at e2
      rw [e1, e2, hd]
      refine ⟨by omega, ?_⟩
      unfold delayOfScore
      simp only [INITIAL_DELAY, SPEED_STEP, LEVEL_UP_SCORE, max_def]
      split_ifs <;> omega

/-! ## The claims -/

/-- C1. Snake invariant: on a board of width at least 1 and playable height at
least 1, every state reachable from `reset()` by `input()` events and
`update()` ticks in which `gameOver` is still 0 has a non-empty snake without
repeated cells, all of them on the board. -/
theorem snake_invariant (rows cols : Int) (s : State)
    (hw : 1 ≤ s.termWidth) (hh : 1 ≤ s.termHeight - STATUS_HEIGHT)
    (hr : Reachable rows cols s) (hg : s.gameOver = 0) :
    s.snake ≠ [] ∧ s.snake.Nodup ∧
      ∀ c ∈ s.snake, 0 ≤ c.1 ∧ c.1 < s.termWidth ∧
        0 ≤ c.2 ∧ c.2 < s.termHeight - STATUS_HEIGHT :=
  (reachable_good rows cols s hr).1

/-- The snake invariant at the state one growth tick after `reset` on the
10 by 10 board. -/
theorem snake_invariant_witness :
    scenarioA1.snake ≠ [] ∧ scenarioA1.snake.Nodup ∧
      ∀ c ∈ scenarioA1.snake, 0 ≤ c.1 ∧ c.1 < scenarioA1.termWidth ∧
        0 ≤ c.2 ∧ c.2 < scenarioA1.termHeight - STATUS_HEIGHT :=
  snake_invariant 14 12 scenarioA1 (by decide) (by decide)
    (Reachable.update scenarioA [(0, 5)] scenarioA1
      (Reachable.reset (initialGlobals none) [(6, 10)] scenarioA rfl) rfl)
    (by decide)

/-- C2. Food invariant: in every state reachable from `reset()` by `input()`
events and `update()` ticks (every `placeFood()` call having returned), the
food differs from every snake cell and lies on the board. -/
theorem food_invariant (rows cols : Int) (s : State)
    (hr : Reachable rows cols s) :
    (∀ c ∈ s.snake, c ≠ (s.foodX, s.foodY)) ∧
      0 ≤ s.foodX ∧ s.foodX < s.termWidth ∧
      0 ≤ s.foodY ∧ s.foodY < s.termHeight - STATUS_HEIGHT := by
  obtain ⟨hm, hin⟩ := (reachable_good rows cols s hr).2
  exact ⟨fun c hc he => hm (he ▸ hc), hin⟩

/-- The food invariant at the state one growth tick after `reset` on the
10 by 10 board. -/
theorem food_invariant_witness :
    (∀ c ∈ scenarioA1.snake, c ≠ (scenarioA1.foodX, scenarioA1.foodY)) ∧
      0 ≤ scenarioA1.foodX ∧ scenarioA1.foodX < scenarioA1.termWidth ∧
      0 ≤ scenarioA1.foodY ∧ scenarioA1.foodY < scenarioA1.termHeight - STATUS_HEIGHT :=
  food_invariant 14 12 scenarioA1
    (Reachable.update scenarioA [(0, 5)] scenarioA1
      (Reachable.reset (initialGlobals none) [(6, 10)] scenarioA rfl) rfl)

/-- C3, as stated, fails on a reachable state.  On the terminal of 6 rows by 3
columns `reset` gives the snake `[(0,1)]` with the food at `(0,0)`; after the
Up key the candidate head `(0,0)` is not blocked and is the food cell, yet
`update` produces no state, whatever `rand()` returns: the grown snake covers
every cell `placeFood` can accept, so its loop never ends. -/
theorem update_growth_never_returns :
    Reachable 6 3 tinyUp ∧
    tinyUp.snake = [(0, 1)] ∧
    collision tinyUp (0 + tinyUp.dirX) (1 + tinyUp.dirY) = 0 ∧
    (0 + tinyUp.dirX = tinyUp.foodX ∧ 1 + tinyUp.dirY = tinyUp.foodY) ∧
    ∀ rs s1, update tinyUp rs ≠ .ok s1 := by
  refine ⟨?_, rfl, rfl, ⟨rfl, rfl⟩, ?_⟩
  · exact Reachable.input tinyStart KEY_UP
      (Reachable.reset (initialGlobals none) [(0, 5)] tinyStart rfl)
  · intro rs s1
    rw [update_eat tinyUp (0, 1) [] rs rfl rfl ⟨rfl, rfl⟩]
    apply placeFood_stuck
    intro r1 r2 h0
    obtain ⟨hin, hnm⟩ := (collision_eq_zero_iff _ _ _).1 h0
    apply hnm
    have hx : Int.tmod (r1 : Int) 1 = 0 := by
      have h1 := hin.1
      have h2 := hin.2.1
      have e1 : Int.tmod (r1 : Int) 1 < 1 := h2
      have e2 : 0 ≤ Int.tmod (r1 : Int) 1 := h1
      omega
    have hy : Int.tmod (r2 : Int) 6 - (4 + 1) = 0 := by
      have e1 : 0 ≤ Int.tmod (r2 : Int) 6 - (4 + 1) := hin.2.2.1
      have e2 : Int.tmod (r2 : Int) 6 < 6 := Int.tmod_lt_of_pos _ (by decide)
      omega
    have hcell : foodCandidate
        { tinyUp with snake := ((0 : Int) + tinyUp.dirX, (1 : Int) + tinyUp.dirY) :: tinyUp.snake,
                      score := tinyUp.score + 1,
                      delay := if Int.tmod (tinyUp.score + 1) LEVEL_UP_SCORE = 0 ∧
                                  tinyUp.delay > 50000
                               then tinyUp.delay - SPEED_STEP else tinyUp.delay }
        r1 r2 = (0, 0) := Prod.ext hx hy
    rw [Prod.mk.eta, hcell]
    exact List.mem_cons_self _ _

/-- C3, amended.  Successful tick: when the candidate head
`c = head + (dirX, dirY)` is not blocked by `collision`, `update` does not
touch `gameOver` (it stays 0) and: if `c` is not the food cell, `update`
returns the snake `c :: oldSnake.dropLast` (same length) with score and food
unchanged; if `c` is the food cell, `update` returns as soon as `placeFood`
draws a candidate that is free of the grown snake and never returns when no
candidate is free, and every state it returns has the snake `c :: oldSnake`
(one cell longer) and the score one higher. -/
theorem update_success (s : State) (hd : Cell) (tl : List Cell)
    (hs : s.snake = hd :: tl)
    (hc : collision s (hd.1 + s.dirX) (hd.2 + s.dirY) = 0) :
    (hd.1 + s.dirX = s.foodX ∧ hd.2 + s.dirY = s.foodY →
      (∀ rs s1, update s rs = .ok s1 →
        s1.snake = (hd.1 + s.dirX, hd.2 + s.dirY) :: s.snake ∧
        s1.snake.length = s.snake.length + 1 ∧
        s1.score = s.score + 1 ∧ s1.gameOver = s.gameOver) ∧
      (∀ pre r1 r2 post,
        collision (addSegment s (hd.1 + s.dirX) (hd.2 + s.dirY))
          (foodCandidate s r1 r2).1 (foodCandidate s r1 r2).2 = 0 →
        ∃ s1, update s (pre ++ (r1, r2) :: post) = .ok s1) ∧
      ((∀ r1 r2 : Nat,
          collision (addSegment s (hd.1 + s.dirX) (hd.2 + s.dirY))
            (foodCandidate s r1 r2).1 (foodCandidate s r1 r2).2 ≠ 0) →
        ∀ rs s1, update s rs ≠ .ok s1)) ∧
    (¬ (hd.1 + s.dirX = s.foodX ∧ hd.2 + s.dirY = s.foodY) →
      ∀ rs, ∃ s1, update s rs = .ok s1 ∧
        s1.snake = (hd.1 + s.dirX, hd.2 + s.dirY) :: s.snake.dropLast ∧
        s1.snake.length = s.snake.length ∧
        s1.score = s.score ∧ s1.foodX = s.foodX ∧ s1.foodY = s.foodY ∧
        s1.gameOver = s.gameOver) := by
  refine ⟨fun hf => ⟨?_, ?_, ?_⟩, fun hf rs => ?_⟩
  · intro rs s1 h
    rw [update_eat s hd tl rs hs hc hf] at h
    obtain ⟨h1, -⟩ := placeFood_ok _ rs s1 h
    have hsn : s1.snake = (hd.1 + s.dirX, hd.2 + s.dirY) :: s.snake := by
      have e := congrArg State.snake h1
      exact e
    have hsc : s1.score = s.score + 1 := by
      have e := congrArg State.score h1
      exact e
    have hg : s1.gameOver = s.gameOver := by
      have e := congrArg State.gameOver h1
      exact e
    exact ⟨hsn, by rw [hsn, List.length_cons], hsc, hg⟩
  · intro pre r1 r2 post hfree
    rw [update_eat s hd tl _ hs hc hf]
    exact placeFood_returns _ pre r1 r2 post hfree
  · intro hall rs s1
    rw [update_eat s hd tl rs hs hc hf]
    exact placeFood_stuck _ (by intro a b; exact hall a b) rs s1
  · refine ⟨_, update_move s hd tl rs hs hc hf, rfl, ?_, rfl, rfl, rfl, rfl⟩
    have hne : s.snake ≠ [] := by rw [hs]; exact List.cons_ne_nil _ _
    show (s.snake.dropLast).length + 1 = s.snake.length
    rw [List.length_dropLast]
    have := List.length_pos.2 hne
    omega

/-- Scenario A: on the 10 by 10 board with snake `[(5,5)]`, heading right,
food at `(6,5)`, one tick gives the snake `[(6,5),(5,5)]` and score 1. -/
theorem update_success_witness :
    update scenarioA [(0, 5)] = .ok scenarioA1 ∧
      scenarioA1.snake = [(6, 5), (5, 5)] ∧ scenarioA1.score = 1 :=
  ⟨rfl,
   (((update_success scenarioA (5, 5) [] rfl rfl).1 ⟨rfl, rfl⟩).1
      [(0, 5)] scenarioA1 rfl).1,
   (((update_success scenarioA (5, 5) [] rfl rfl).1 ⟨rfl, rfl⟩).1
      [(0, 5)] scenarioA1 rfl).2.2.1⟩

/-- C4. Fatal tick: when the candidate head is outside the board or on a
snake cell, `update` sets `gameOver` to 1 and changes nothing else: snake,
score, food, delay and direction are as they were. -/
theorem update_fatal_tick (s : State) (hd : Cell) (tl : List Cell)
    (rs : List (Nat × Nat)) (hs : s.snake = hd :: tl)
    (hbad : (hd.1 + s.dirX < 0 ∨ hd.1 + s.dirX ≥ s.termWidth ∨
              hd.2 + s.dirY < 0 ∨ hd.2 + s.dirY ≥ s.termHeight - STATUS_HEIGHT) ∨
            (hd.1 + s.dirX, hd.2 + s.dirY) ∈ s.snake) :
    update s rs = .ok { s with gameOver := 1 } := by
  apply update_fatal s hd tl rs hs
  intro h0
  obtain ⟨hin, hnm⟩ := (collision_eq_zero_iff s _ _).1 h0
  unfold InBoard at hin
  rcases hbad with hout | hmem
  · dsimp only at hin
    omega
  · exact hnm hmem

/-- Scenario B: a head at `(0,5)` heading left would move to `(-1,5)`; the
tick only sets `gameOver`. -/
theorem update_fatal_tick_witness :
    update scenarioB [] = .ok { scenarioB with gameOver := 1 } :=
  update_fatal_tick scenarioB (0, 5) [] [] rfl (Or.inl (Or.inl (by decide)))

/-- C5. The tick delay is derived solely from the score: in every reachable
state `delay = max(50000, 70000 - 5000 * floor(score / 10))`; so it is
positive, never below the floor, non-increasing in the score, untouched by
`input`, and a tick lowers it, by exactly `SPEED_STEP`, exactly when that tick
brings the score to a multiple of 10 while the delay is above the floor. -/
theorem delay_from_score (rows cols : Int) (s : State)
    (hr : Reachable rows cols s) :
    s.delay = delayOfScore s.score ∧ 0 < s.delay ∧ 50000 ≤ s.delay ∧
    (∀ a b : Int, a ≤ b → delayOfScore b ≤ delayOfScore a) ∧
    (∀ ch, (input s ch).delay = s.delay ∧ (input s ch).score = s.score) ∧
    (∀ rs s1, update s rs = .ok s1 →
      s.score ≤ s1.score ∧ s1.delay ≤ s.delay ∧
      (s1.delay = s.delay ∨ s1.delay = s.delay - SPEED_STEP) ∧
      (s1.delay = s.delay - SPEED_STEP ↔
        s1.score = s.score + 1 ∧ s1.score % LEVEL_UP_SCORE = 0 ∧ s.delay > 50000)) := by
  obtain ⟨hsc, hd⟩ := reachable_delay rows cols s hr
  have hfloor : 50000 ≤ s.delay := by
    rw [hd]; exact le_max_left _ _
  refine ⟨hd, by omega, hfloor, ?_, ?_, ?_⟩
  · intro a b hab
    unfold delayOfScore
    simp only [INITIAL_DELAY, SPEED_STEP, LEVEL_UP_SCORE, max_def]
    split_ifs <;> omega
  · intro ch
    obtain ⟨-, -, -, -, -, h6, h7⟩ := input_frame s ch
    exact ⟨h7, h6⟩
  · intro rs s1 hu
    have hS : SPEED_STEP = 5000 := rfl
    have hL : LEVEL_UP_SCORE = 10 := rfl
    rcases update_score_delay s rs s1 hu with ⟨e1, e2⟩ | ⟨e1, e2⟩
    · rw [e1, e2, hS, hL]
      omega
    · have hmod : Int.tmod (s.score + 1) LEVEL_UP_SCORE = (s.score + 1) % 10 :=
        Int.tmod_eq_emod (by omega) (by decide)
      rw [hmod, hS] at e2
      rw [e1, e2, hS, hL]
      split_ifs with hl <;> omega

/-- The delay formula at the state one growth tick after `reset`. -/
theorem delay_from_score_witness :
    scenarioA1.delay = delayOfScore scenarioA1.score ∧ 0 < scenarioA1.delay ∧
      50000 ≤ scenarioA1.delay :=
  ⟨(delay_from_score 14 12 scenarioA1
      (Reachable.update scenarioA [(0, 5)] scenarioA1
        (Reachable.reset (initialGlobals none) [(6, 10)] scenarioA rfl) rfl)).1,
   by decide, by decide⟩

/-- C7. Axis-locked turning: for each of the four directions and each
directional key, `input` sets the direction to the key's unit vector when the
key's axis differs from the current movement axis and changes nothing
otherwise; nothing but the direction ever changes. -/
theorem input_axis_locked (s : State) (ch : Int) (v : Int × Int)
    (hdir : IsDirection s.dirX s.dirY) (hk : keyVector ch = some v) :
    input s ch =
      if horizontal v = horizontal (s.dirX, s.dirY) then s
      else { s with dirX := v.1, dirY := v.2 } := by
  have hkey : (ch = KEY_UP ∧ v = (0, -1)) ∨ (ch = KEY_DOWN ∧ v = (0, 1)) ∨
      (ch = KEY_LEFT ∧ v = (-1, 0)) ∨ (ch = KEY_RIGHT ∧ v = (1, 0)) := by
    unfold keyVector at hk
    split_ifs at hk with h1 h2 h3 h4
    · exact Or.inl ⟨h1, (Option.some.inj hk).symm⟩
    · exact Or.inr (Or.inl ⟨h2, (Option.some.inj hk).symm⟩)
    · exact Or.inr (Or.inr (Or.inl ⟨h3, (Option.some.inj hk).symm⟩))
    · exact Or.inr (Or.inr (Or.inr ⟨h4, (Option.some.inj hk).symm⟩))
  rcases hkey with ⟨rfl, rfl⟩ | ⟨rfl, rfl⟩ | ⟨rfl, rfl⟩ | ⟨rfl, rfl⟩ <;>
    rcases hdir with ⟨hx, hy⟩ | ⟨hx, hy⟩ | ⟨hx, hy⟩ | ⟨hx, hy⟩ <;>
    simp [input, horizontal, KEY_UP, KEY_DOWN, KEY_LEFT, KEY_RIGHT, hx, hy]

/-- Heading right, Left is rejected while Up and Down are accepted. -/
theorem input_axis_locked_witness :
    input scenarioA KEY_LEFT = scenarioA ∧
      input scenarioA KEY_UP = { scenarioA with dirX := 0, dirY := -1 } ∧
      input scenarioA KEY_DOWN = { scenarioA with dirX := 0, dirY := 1 } :=
  ⟨input_axis_locked scenarioA KEY_LEFT (-1, 0) (Or.inl ⟨rfl, rfl⟩) rfl,
   input_axis_locked scenarioA KEY_UP (0, -1) (Or.inl ⟨rfl, rfl⟩) rfl,
   input_axis_locked scenarioA KEY_DOWN (0, 1) (Or.inl ⟨rfl, rfl⟩) rfl⟩

/-- C8. Restart is a full reset: whatever the prior state, a `reset` that
returns leaves score 0, the snake a single cell at the board centre
`(termWidth / 2, (termHeight - STATUS_HEIGHT) / 2)`, direction `(1, 0)`, delay
`INITIAL_DELAY`, `gameOver = 0` and `gamePaused = 0`; and on a terminal of at
least 3 columns and 6 rows it does return once the food draw `(0, 5)` comes. -/
theorem reset_full (s : State) (rows cols : Int) :
    (∀ rs s1, reset s rows cols rs = .ok s1 →
      s1.score = 0 ∧
      s1.snake = [(Int.tdiv s1.termWidth 2,
                   Int.tdiv (s1.termHeight - STATUS_HEIGHT) 2)] ∧
      s1.dirX = 1 ∧ s1.dirY = 0 ∧ s1.delay = INITIAL_DELAY ∧
      s1.gameOver = 0 ∧ s1.gamePaused = 0 ∧
      s1.termWidth = cols - 2 ∧ s1.termHeight = rows) ∧
    (1 ≤ cols - 2 → 6 ≤ rows →
      ∀ pre post, ∃ s1, reset s rows cols (pre ++ (0, 5) :: post) = .ok s1) := by
  constructor
  · intro rs s1 h
    unfold reset at h
    obtain ⟨h1, -⟩ := placeFood_ok _ rs s1 h
    have hw : s1.termWidth = cols - 2 := by
      have e := congrArg State.termWidth h1
      exact e
    have hh : s1.termHeight = rows := by
      have e := congrArg State.termHeight h1
      exact e
    refine ⟨?_, ?_, ?_, ?_, ?_, ?_, ?_, hw, hh⟩
    · have e := congrArg State.score h1
      exact e
    · rw [hw, hh]
      have e := congrArg State.snake h1
      exact e
    · have e := congrArg State.dirX h1
      exact e
    · have e := congrArg State.dirY h1
      exact e
    · have e := congrArg State.delay h1
      exact e
    · have e := congrArg State.gameOver h1
      exact e
    · have e := congrArg State.gamePaused h1
      exact e
  · intro hw hh pre post
    unfold reset
    apply placeFood_returns
    rw [collision_eq_zero_iff]
    have e0 : Int.tmod ((0 : Nat) : Int) (cols - 2) = 0 := by simp
    have e5 : Int.tmod ((5 : Nat) : Int) rows = 5 := by
      rw [Int.tmod_eq_emod (by omega) (by omega)]
      exact Int.emod_eq_of_lt (by omega) (by omega)
    have e2 : Int.tdiv (rows - 4) 2 = (rows - 4) / 2 :=
      Int.tdiv_eq_ediv (by omega) (by omega)
    simp only [foodCandidate, InBoard, addSegment, cleanup, STATUS_HEIGHT, e0, e5, e2,
      List.mem_singleton, Prod.mk.injEq, not_and]
    refine ⟨⟨le_refl _, by omega, by omega, by omega⟩, ?_⟩
    intro _
    omega

/-- Scenario D: restarting from a finished, paused game with score 12 gives
the fresh game `scenarioA`. -/
theorem reset_full_witness :
    reset scenarioOver 14 12 [(6, 10)] = .ok scenarioA ∧
      scenarioA.score = 0 ∧ scenarioA.snake = [(5, 5)] ∧ scenarioA.gamePaused = 0 :=
  ⟨rfl,
   ((reset_full scenarioOver 14 12).1 [(6, 10)] scenarioA rfl).1,
   ((reset_full scenarioOver 14 12).1 [(6, 10)] scenarioA rfl).2.1,
   ((reset_full scenarioOver 14 12).1 [(6, 10)] scenarioA rfl).2.2.2.2.2.2.1⟩

/-- C6, evaluated on a run of two games: the file holds 0 at the start, the
first game ends with score 2 and the file then holds 2; after the restart the
second game ends with score 1, and the `saveHighScore()` call at that game
over replaces the 2 in the file by 1, where `max(2, 1) = 2` was claimed. -/
theorem saveHighScore_lowers_file :
    init (some 0) 14 12 [(6, 10)] = .ok fileStart ∧
    mainLoop fileStart firstGame = .ok afterFirstGame ∧
    afterFirstGame.scoreFile = some 2 ∧
    mainLoop afterFirstGame secondGame = .ok afterSecondGame ∧
    afterSecondGame.score = 1 ∧ afterSecondGame.scoreFile = some 2 ∧
    (saveHighScore afterSecondGame).scoreFile = some 1 ∧
    (∀ t : Tick, ∃ s1, loopBody afterSecondGame { t with ch := 113 } = .ok s1 ∧
      s1.scoreFile = some 1) := by
  refine ⟨rfl, rfl, rfl, rfl, rfl, rfl, rfl, fun t => ⟨_, rfl, rfl⟩⟩

/-- C9, evaluated on a run: after one growth tick the player pauses and,
while paused, presses Up and then Left.  Both turns are accepted, the stored
direction becomes Left although the last move was Right, the candidate head is
the neck `(5,5)`, and the pass that resumes the game ends it. -/
theorem reversal_while_paused :
    reset (initialGlobals none) 14 12 [(6, 10)] = .ok scenarioA ∧
    mainLoop scenarioA pausedTurns = .ok afterPausedTurns ∧
    afterPausedTurns.snake = [(6, 5), (5, 5)] ∧
    afterPausedTurns.gameOver = 0 ∧
    (6 + afterPausedTurns.dirX, 5 + afterPausedTurns.dirY) = ((5, 5) : Cell) ∧
    loopBody afterPausedTurns (press 112) =
      .ok { afterPausedTurns with gamePaused := 0, gameOver := 1 } := by
  refine ⟨rfl, rfl, rfl, rfl, rfl, rfl⟩

/-- C10, evaluated on the 10 by 10 board: the `rand()` results `(0, 0)` give
the candidate `(0, -5)`, which is off the board, and no pair of results gives
a candidate in the last playable row, such as the board cell `(3, 9)`. -/
theorem foodCandidate_off_board :
    foodCandidate scenarioA 0 0 = (0, -5) ∧
    ¬ InBoard scenarioA (foodCandidate scenarioA 0 0) ∧
    InBoard scenarioA (3, 9) ∧
    ∀ r1 r2 : Nat, foodCandidate scenarioA r1 r2 ≠ (3, 9) := by
  refine ⟨rfl, by decide, by decide, ?_⟩
  intro r1 r2 h
  have h2 : Int.tmod (r2 : Int) 14 - (4 + 1) = 9 := congrArg Prod.snd h
  have hlt : Int.tmod (r2 : Int) 14 < 14 := Int.tmod_lt_of_pos _ (by decide)
  omega

end TSnake
